import Mathlib

/-!
Verification of the grafity episode-ingestion pipeline.

This file shallowly embeds the core of the repository:
* `quickStart.py` — the relation vocabulary (`ALLOWED_RELATION_TYPES`),
  the structured extractor (`extract_structured_json`), the graph upsert
  engine (`insert_structured_graph`) and the batch orchestrator
  (`add_episodes`);
* `grafityMain.py` — the search facade (`search_graphiti`,
  `search_graphiti_api`).

The Neo4j graph store is modelled as explicit set-like lists with
merge-if-absent (Cypher MERGE) semantics; a Cypher MATCH that finds no
node makes the statement write nothing.  External collaborators (the LLM
call, `json.loads`, `datetime.fromisoformat`, the graphiti store calls)
are modelled as per-call outcome oracles threaded through the functions,
so that every control-flow branch of the Python code is represented.
-/

namespace Grafity

/-- The fixed relation vocabulary `ALLOWED_RELATION_TYPES` of `quickStart.py`. -/
def ALLOWED_RELATION_TYPES : List String :=
  ["does", "performs", "includes", "happens_on", "focuses_on", "practices"]

/-- A node of the extractor's JSON output: `{"name": ...}`; the name key may be
absent (`node.get("name")` returns `None`). -/
structure GNode where
  name : Option String
  deriving DecidableEq, Repr

/-- An edge of the extractor's JSON output: `{"source", "target", "type"}`,
each key possibly absent. -/
structure GEdge where
  source : Option String
  target : Option String
  type : Option String
  deriving DecidableEq, Repr

/-- The dict returned by the extractor, restricted to the two keys the code
reads; `none` models an absent key (`structured_data.get("nodes", [])`). -/
structure StructuredData where
  nodes : Option (List GNode)
  edges : Option (List GEdge)
  deriving DecidableEq, Repr

/-- Python truthiness of the structured dict: the empty dict `{}` is falsy,
a dict with at least one key is truthy. -/
def dataTruthy (d : StructuredData) : Bool :=
  d.nodes.isSome || d.edges.isSome

/-- The state of the Neo4j store as the upsert engine sees it: `Episode`
nodes, `Entity` nodes (keyed by name), `MENTIONS` provenance edges
(episode name, entity name), and typed relation edges
(source, target, type). -/
structure GraphStore where
  episodes : List String
  entities : List String
  mentions : List (String × String)
  edges : List (String × String × String)
  deriving DecidableEq, Repr

/-- Cypher `MERGE`: create the element only when it is absent. -/
def mergeInto {α : Type} [DecidableEq α] (l : List α) (a : α) : List α :=
  if a ∈ l then l else l ++ [a]

/-- One iteration of the node loop of `insert_structured_graph`: a truthy
name merges an `Entity`, then `MATCH (e:Episode) MATCH (n:Entity)
MERGE (e)-[:MENTIONS]->(n)` writes the provenance edge only when the
episode node exists. -/
def processNode (episode_name : String) (st : GraphStore) (n : GNode) : GraphStore :=
  match n.name with
  | none => st
  | some name =>
    if name = "" then st
    else
      let st1 := { st with entities := mergeInto st.entities name }
      if episode_name ∈ st1.episodes then
        { st1 with mentions := mergeInto st1.mentions (episode_name, name) }
      else st1

/-- Whether `MATCH (a:Entity {name: $source}) MATCH (b:Entity {name: $target})`
finds both endpoints (a `null` parameter matches nothing). -/
def endpointsPresent (st : GraphStore) (e : GEdge) : Bool :=
  match e.source, e.target with
  | some s, some t => decide (s ∈ st.entities) && decide (t ∈ st.entities)
  | _, _ => false

/-- One iteration of the edge loop of `insert_structured_graph`: skip when
the relation type is not in the vocabulary, otherwise merge the typed edge
when both endpoint entities exist. -/
def processEdge (st : GraphStore) (e : GEdge) : GraphStore :=
  match e.type with
  | none => st
  | some rel_type =>
    if rel_type ∈ ALLOWED_RELATION_TYPES then
      match e.source, e.target with
      | some s, some t =>
        if s ∈ st.entities ∧ t ∈ st.entities then
          { st with edges := mergeInto st.edges (s, t, rel_type) }
        else st
      | _, _ => st
    else st

/-- `insert_structured_graph(driver, structured_data, episode_name)`:
process all nodes, then all edges. -/
def insert_structured_graph (episode_name : String) (st : GraphStore)
    (structured_data : StructuredData) : GraphStore :=
  let st1 := (structured_data.nodes.getD []).foldl (processNode episode_name) st
  (structured_data.edges.getD []).foldl processEdge st1

/-- The empty dict `{}` returned by `extract_structured_json` on a JSON
parse failure. -/
def emptyStructuredData : StructuredData := ⟨none, none⟩

/-- Keep an edge iff `edge.get("type") in ALLOWED_RELATION_TYPES`. -/
def keepEdge (e : GEdge) : Bool :=
  match e.type with
  | some t => decide (t ∈ ALLOWED_RELATION_TYPES)
  | none => false

/-- The pure core of `extract_structured_json`: given the outcome of
`json.loads` on the LLM response (`.error` models `JSONDecodeError`),
filter the edges list (when the key is present) down to the vocabulary,
or return the empty dict on parse failure. -/
def extract_structured_json (parsed : Except String StructuredData) : StructuredData :=
  match parsed with
  | .error _ => emptyStructuredData
  | .ok d => { d with edges := d.edges.map (fun es => es.filter keepEdge) }

/-- One element of the JSON array posted to `/QuickStart/AddEpisodes`:
`ep.get("name")`, `ep.get("content")`, `ep.get("description", "")`,
`ep.get("reference_time")`. -/
structure EpisodeRequest where
  name : Option String
  content : Option String
  description : Option String
  reference_time : Option String
  deriving DecidableEq, Repr

/-- Per-episode outcomes of the external collaborators, fixed before the
iteration runs: `now` is `datetime.now(timezone.utc)` at the iteration
(timestamps modelled as integers); `fromiso` is the outcome of
`datetime.fromisoformat(reference_time)` when called (`none` = raises);
`addEpisodeError` models `graphiti.add_episode` raising; `llmError`
models the LLM completion call raising; `parsed` is the outcome of
`json.loads` on the LLM response text; `insertError` models
`insert_structured_graph` raising a store error. -/
structure EpisodeWorld where
  now : Int
  fromiso : Option Int
  addEpisodeError : Option String
  llmError : Option String
  parsed : Except String StructuredData
  insertError : Option String
  deriving Repr

/-- Which external calls one episode iteration performed:
`addEpisodeCall` records the `(name, episode_body, source_description,
reference_time)` arguments passed to `graphiti.add_episode` (or `none`
when never called); `llmCalled` and `insertCalled` record whether the
extractor's LLM call and `insert_structured_graph` were invoked. -/
structure EpisodeTrace where
  addEpisodeCall : Option (String × String × String × Int)
  llmCalled : Bool
  insertCalled : Bool
  deriving DecidableEq, Repr

/-- The trace of an iteration that made no external call. -/
def noTrace : EpisodeTrace := ⟨none, false, false⟩

/-- One element of the JSON array the endpoint returns: either
`{"error": ...}` with no name key, `{"name", "message", "structured"}`,
or `{"name", "error"}`. -/
inductive EpOutcome where
  | errOnly (error : String)
  | ok (name message : String) (structured : StructuredData)
  | errNamed (name error : String)
  deriving DecidableEq, Repr

/-- The fixed validation-failure message of `add_episodes`. -/
def missingMsg : String := "Missing name or content for one episode"

/-- Python truthiness of an optional string: `None` and `""` are falsy. -/
def strTruthy : Option String → Bool
  | none => false
  | some s => decide (s ≠ "")

/-- The `try` block of one `add_episodes` iteration, after validation and
reference-time resolution: write the episode, extract, and upsert when
the structured dict is truthy, catching any exception into a named
error result. -/
def runPipeline (nm ct desc : String) (rt : Int) (w : EpisodeWorld) :
    EpOutcome × EpisodeTrace :=
  let tr0 : EpisodeTrace := ⟨some (nm, ct, desc, rt), false, false⟩
  match w.addEpisodeError with
  | some err => (.errNamed nm err, tr0)
  | none =>
    let tr1 := { tr0 with llmCalled := true }
    match w.llmError with
    | some err => (.errNamed nm err, tr1)
    | none =>
      let structured := extract_structured_json w.parsed
      if dataTruthy structured then
        let tr2 := { tr1 with insertCalled := true }
        match w.insertError with
        | some err => (.errNamed nm err, tr2)
        | none => (.ok nm "Episode added successfully" structured, tr2)
      else (.ok nm "Episode added successfully" structured, tr1)

/-- One iteration of the `add_episodes` loop: validate name and content
(Python truthiness), resolve the reference time (default `now`; a truthy
`reference_time` string goes through `fromisoformat`, whose failure
yields the invalid-reference-time error), then run the pipeline. -/
def processEpisode (req : EpisodeRequest) (w : EpisodeWorld) :
    EpOutcome × EpisodeTrace :=
  match req.name, req.content with
  | some nm, some ct =>
    if nm = "" ∨ ct = "" then (.errOnly missingMsg, noTrace)
    else
      match req.reference_time with
      | none => runPipeline nm ct (req.description.getD "") w.now w
      | some s =>
        if s = "" then runPipeline nm ct (req.description.getD "") w.now w
        else
          match w.fromiso with
          | some t => runPipeline nm ct (req.description.getD "") t w
          | none =>
            (.errOnly ("Invalid reference_time for episode: " ++ nm), noTrace)
  | _, _ => (.errOnly missingMsg, noTrace)

/-- The `process_all` loop of `add_episodes`: start from an empty results
list and append exactly one outcome per episode, in order. -/
def add_episodes (eps : List (EpisodeRequest × EpisodeWorld)) : List EpOutcome :=
  eps.foldl (fun results p => results ++ [(processEpisode p.1 p.2).1]) []

/-- Whether a result element carries the `"name"` key. -/
def hasNameField : EpOutcome → Bool
  | .errOnly _ => false
  | .ok _ _ _ => true
  | .errNamed _ _ => true

/-- The value of the `"name"` key of a result element, when present. -/
def outcomeName : EpOutcome → Option String
  | .errOnly _ => none
  | .ok n _ _ => some n
  | .errNamed n _ => some n

/-- Validation passes: name and content both truthy. -/
def validOk (req : EpisodeRequest) : Bool :=
  strTruthy req.name && strTruthy req.content

/-- Reference-time resolution does not fail: the field is absent or falsy,
or `fromisoformat` succeeds. -/
def timeOk (req : EpisodeRequest) (w : EpisodeWorld) : Bool :=
  match req.reference_time with
  | none => true
  | some s => decide (s = "") || w.fromiso.isSome

/-- A raw match from `graphiti.search`, as `search_graphiti` reads it:
`uuid` and `fact` attributes plus three optional attributes read via
`getattr(..., None)` (the datetimes already rendered by `str`). -/
structure RawResult where
  uuid : String
  fact : String
  source_node_uuid : Option String
  valid_at : Option String
  invalid_at : Option String
  deriving DecidableEq, Repr

/-- The `GraphitiSearchResult` pydantic model of `grafityMain.py`. -/
structure GraphitiSearchResult where
  uuid : String
  fact : String
  valid_at : Option String
  invalid_at : Option String
  source_node_uuid : Option String
  deriving DecidableEq, Repr

/-- The normalization of one raw match inside `search_graphiti`:
`str(getattr(result, 'valid_at', None)) if getattr(...) else None` — a
missing or `None` attribute maps to `None`, a present datetime (always
truthy) maps to its string rendering, modelled here as already a string. -/
def formatResult (r : RawResult) : GraphitiSearchResult :=
  ⟨r.uuid, r.fact, r.valid_at, r.invalid_at, r.source_node_uuid⟩

/-- `search_graphiti`: given the outcome of the underlying
`graphiti.search` call (`.error` models it raising), either format every
match or re-raise `Exception("Graphiti search failed: ...")`. -/
def search_graphiti (res : Except String (List RawResult)) :
    Except String (List GraphitiSearchResult) :=
  match res with
  | .ok results => .ok (results.map formatResult)
  | .error e => .error ("Graphiti search failed: " ++ e)

/-- The HTTP response of the `/GrafityMain/Search` endpoint. -/
inductive SearchApiResponse where
  | ok200 (results : List GraphitiSearchResult)
  | err500 (detail : String)
  deriving DecidableEq, Repr

/-- The fixed detail string of the endpoint's 500 response. -/
def genericSearchFailure : String := "An error occurred while processing the request"

/-- `search_graphiti_api`: run the search; any exception is caught and
mapped to a 500 response with a fixed generic detail string. -/
def search_graphiti_api (res : Except String (List RawResult)) : SearchApiResponse :=
  match search_graphiti res with
  | .ok results => .ok200 results
  | .error _ => .err500 genericSearchFailure

/-! ### Store lemmas -/

theorem mem_mergeInto {α : Type} [DecidableEq α] {l : List α} {a x : α} :
    x ∈ mergeInto l a ↔ x ∈ l ∨ x = a := by
  unfold mergeInto
  split
  · constructor
    · exact Or.inl
    · rintro (h | rfl) <;> assumption
  · simp [List.mem_append]

theorem mergeInto_of_mem {α : Type} [DecidableEq α] {l : List α} {a : α}
    (h : a ∈ l) : mergeInto l a = l := if_pos h

theorem self_mem_mergeInto {α : Type} [DecidableEq α] {l : List α} {a : α} :
    a ∈ mergeInto l a := mem_mergeInto.mpr (Or.inr rfl)

theorem mem_mergeInto_of_mem {α : Type} [DecidableEq α] {l : List α} {a x : α}
    (h : x ∈ l) : x ∈ mergeInto l a := mem_mergeInto.mpr (Or.inl h)

/-! Component behaviour of one node-loop iteration. -/

theorem processNode_episodes (ep : String) (st : GraphStore) (n : GNode) :
    (processNode ep st n).episodes = st.episodes := by
  unfold processNode
  cases n.name <;> simp only
  split
  · rfl
  · split <;> rfl

theorem processNode_edges (ep : String) (st : GraphStore) (n : GNode) :
    (processNode ep st n).edges = st.edges := by
  unfold processNode
  cases n.name <;> simp only
  split
  · rfl
  · split <;> rfl

theorem processNode_entities_mono {ep : String} {st : GraphStore} {n : GNode}
    {x : String} (h : x ∈ st.entities) : x ∈ (processNode ep st n).entities := by
  unfold processNode
  cases n.name <;> simp only
  · exact h
  · split
    · exact h
    · split <;> exact mem_mergeInto_of_mem h

theorem processNode_mentions_mono {ep : String} {st : GraphStore} {n : GNode}
    {m : String × String} (h : m ∈ st.mentions) :
    m ∈ (processNode ep st n).mentions := by
  unfold processNode
  cases n.name <;> simp only
  · exact h
  · split
    · exact h
    · split
      · exact mem_mergeInto_of_mem h
      · exact h

/-! Component behaviour of one edge-loop iteration. -/

theorem processEdge_episodes (st : GraphStore) (e : GEdge) :
    (processEdge st e).episodes = st.episodes := by
  unfold processEdge
  cases e.type <;> simp only
  split
  · cases e.source <;> cases e.target <;> simp only <;> try rfl
    split <;> rfl
  · rfl

theorem processEdge_entities (st : GraphStore) (e : GEdge) :
    (processEdge st e).entities = st.entities := by
  unfold processEdge
  cases e.type <;> simp only
  split
  · cases e.source <;> cases e.target <;> simp only <;> try rfl
    split <;> rfl
  · rfl

theorem processEdge_mentions (st : GraphStore) (e : GEdge) :
    (processEdge st e).mentions = st.mentions := by
  unfold processEdge
  cases e.type <;> simp only
  split
  · cases e.source <;> cases e.target <;> simp only <;> try rfl
    split <;> rfl
  · rfl

theorem processEdge_edges_mono {st : GraphStore} {e : GEdge}
    {tr : String × String × String} (h : tr ∈ st.edges) :
    tr ∈ (processEdge st e).edges := by
  unfold processEdge
  cases e.type <;> simp only
  · exact h
  · split
    · cases e.source <;> cases e.target <;> simp only <;> try exact h
      split
      · exact mem_mergeInto_of_mem h
      · exact h
    · exact h

/-- Anything the edge loop adds has an allowed relation type. -/
theorem processEdge_edges_allowed {st : GraphStore} {e : GEdge}
    {tr : String × String × String} (h : tr ∈ (processEdge st e).edges) :
    tr ∈ st.edges ∨ tr.2.2 ∈ ALLOWED_RELATION_TYPES := by
  unfold processEdge at h
  rcases he : e.type with _ | rel_type <;> rw [he] at h <;> simp only at h
  · exact Or.inl h
  · by_cases hallow : rel_type ∈ ALLOWED_RELATION_TYPES
    · rw [if_pos hallow] at h
      rcases hs : e.source with _ | s <;> rcases ht : e.target with _ | t <;>
          rw [hs, ht] at h <;> simp only at h
      · exact Or.inl h
      · exact Or.inl h
      · exact Or.inl h
      · split at h
        · rcases mem_mergeInto.mp h with h' | h'
          · exact Or.inl h'
          · subst h'
            exact Or.inr hallow
        · exact Or.inl h
    · rw [if_neg hallow] at h
      exact Or.inl h

/-! ### Fold lemmas for the two loops -/

theorem nodeFold_episodes (ep : String) (ns : List GNode) :
    ∀ st : GraphStore, (ns.foldl (processNode ep) st).episodes = st.episodes := by
  induction ns with
  | nil => intro st; rfl
  | cons n ns ih =>
    intro st
    rw [List.foldl_cons, ih, processNode_episodes]

theorem nodeFold_edges (ep : String) (ns : List GNode) :
    ∀ st : GraphStore, (ns.foldl (processNode ep) st).edges = st.edges := by
  induction ns with
  | nil => intro st; rfl
  | cons n ns ih =>
    intro st
    rw [List.foldl_cons, ih, processNode_edges]

theorem nodeFold_entities_mono {ep : String} {ns : List GNode} :
    ∀ {st : GraphStore} {x : String}, x ∈ st.entities →
      x ∈ (ns.foldl (processNode ep) st).entities := by
  induction ns with
  | nil => intro st x h; exact h
  | cons n ns ih =>
    intro st x h
    rw [List.foldl_cons]
    exact ih (processNode_entities_mono h)

theorem nodeFold_mentions_mono {ep : String} {ns : List GNode} :
    ∀ {st : GraphStore} {m : String × String}, m ∈ st.mentions →
      m ∈ (ns.foldl (processNode ep) st).mentions := by
  induction ns with
  | nil => intro st m h; exact h
  | cons n ns ih =>
    intro st m h
    rw [List.foldl_cons]
    exact ih (processNode_mentions_mono h)

theorem edgeFold_episodes (es : List GEdge) :
    ∀ st : GraphStore, (es.foldl processEdge st).episodes = st.episodes := by
  induction es with
  | nil => intro st; rfl
  | cons e es ih =>
    intro st
    rw [List.foldl_cons, ih, processEdge_episodes]

theorem edgeFold_entities (es : List GEdge) :
    ∀ st : GraphStore, (es.foldl processEdge st).entities = st.entities := by
  induction es with
  | nil => intro st; rfl
  | cons e es ih =>
    intro st
    rw [List.foldl_cons, ih, processEdge_entities]

theorem edgeFold_mentions (es : List GEdge) :
    ∀ st : GraphStore, (es.foldl processEdge st).mentions = st.mentions := by
  induction es with
  | nil => intro st; rfl
  | cons e es ih =>
    intro st
    rw [List.foldl_cons, ih, processEdge_mentions]

theorem edgeFold_edges_mono {es : List GEdge} :
    ∀ {st : GraphStore} {tr : String × String × String}, tr ∈ st.edges →
      tr ∈ (es.foldl processEdge st).edges := by
  induction es with
  | nil => intro st tr h; exact h
  | cons e es ih =>
    intro st tr h
    rw [List.foldl_cons]
    exact ih (processEdge_edges_mono h)

/-- Everything the edge loop leaves in the store was already there or has an
allowed relation type. -/
theorem edgeFold_edges_allowed {es : List GEdge} :
    ∀ {st : GraphStore} {tr : String × String × String},
      tr ∈ (es.foldl processEdge st).edges →
      tr ∈ st.edges ∨ tr.2.2 ∈ ALLOWED_RELATION_TYPES := by
  induction es with
  | nil => intro st tr h; exact Or.inl h
  | cons e es ih =>
    intro st tr h
    rw [List.foldl_cons] at h
    rcases ih h with h' | h'
    · exact processEdge_edges_allowed h'
    · exact Or.inr h'

/-- After the node loop, every truthy-named node of the list has its entity
in the store, and its provenance edge too when the episode node exists. -/
theorem nodeFold_effect {ep : String} {ns : List GNode} :
    ∀ {st : GraphStore} {n : GNode} {nm : String}, n ∈ ns → n.name = some nm →
      nm ≠ "" →
      nm ∈ (ns.foldl (processNode ep) st).entities ∧
      (ep ∈ st.episodes → (ep, nm) ∈ (ns.foldl (processNode ep) st).mentions) := by
  induction ns with
  | nil => intro st n nm h; exact absurd h (List.not_mem_nil n)
  | cons n0 ns ih =>
    intro st n nm hmem hname hne
    rw [List.foldl_cons]
    rcases List.mem_cons.mp hmem with rfl | hmem'
    · constructor
      · apply nodeFold_entities_mono
        unfold processNode
        rw [hname]
        simp only [if_neg hne]
        split <;> exact self_mem_mergeInto
      · intro hep
        apply nodeFold_mentions_mono
        unfold processNode
        rw [hname]
        simp only [if_neg hne]
        rw [if_pos hep]
        exact self_mem_mergeInto
    · have := @ih (processNode ep st n0) n nm hmem' hname hne
      refine ⟨this.1, fun hep => this.2 ?_⟩
      rw [processNode_episodes]
      exact hep

/-- After the whole insertion, an edge of the list whose relation type is
allowed and whose endpoints exist at edge-loop time is in the store. -/
theorem edgeFold_effect {es : List GEdge} :
    ∀ {st : GraphStore} {e : GEdge} {s t ty : String}, e ∈ es →
      e.type = some ty → ty ∈ ALLOWED_RELATION_TYPES →
      e.source = some s → e.target = some t →
      s ∈ st.entities → t ∈ st.entities →
      (s, t, ty) ∈ (es.foldl processEdge st).edges := by
  induction es with
  | nil => intro st e s t ty h; exact absurd h (List.not_mem_nil e)
  | cons e0 es ih =>
    intro st e s t ty hmem hty hallow hs ht hsmem htmem
    rw [List.foldl_cons]
    rcases List.mem_cons.mp hmem with rfl | hmem'
    · apply edgeFold_edges_mono
      unfold processEdge
      rw [hty]
      simp only [if_pos hallow]
      rw [hs, ht]
      simp only [if_pos (And.intro hsmem htmem)]
      exact self_mem_mergeInto
    · refine ih hmem' hty hallow hs ht ?_ ?_ <;> rw [processEdge_entities] <;>
        assumption

/-! ### Absorption: re-running a loop whose effects are already present -/

theorem processNode_absorbed {ep : String} {st : GraphStore} {n : GNode}
    (h : ∀ nm, n.name = some nm → nm ≠ "" →
      nm ∈ st.entities ∧ (ep ∈ st.episodes → (ep, nm) ∈ st.mentions)) :
    processNode ep st n = st := by
  unfold processNode
  rcases hname : n.name with _ | nm
  · rfl
  · simp only
    by_cases hne : nm = ""
    · rw [if_pos hne]
    · rw [if_neg hne]
      obtain ⟨hent, hmen⟩ := h nm hname hne
      simp only [mergeInto_of_mem hent]
      split
      · rename_i hep
        rw [mergeInto_of_mem (hmen hep)]
      · rfl

theorem nodeFold_absorbed {ep : String} {ns : List GNode} :
    ∀ {st : GraphStore},
      (∀ n ∈ ns, ∀ nm, n.name = some nm → nm ≠ "" →
        nm ∈ st.entities ∧ (ep ∈ st.episodes → (ep, nm) ∈ st.mentions)) →
      ns.foldl (processNode ep) st = st := by
  induction ns with
  | nil => intro st _; rfl
  | cons n0 ns ih =>
    intro st h
    rw [List.foldl_cons, processNode_absorbed (h n0 (List.mem_cons_self n0 ns)),
      ih]
    intro n hn
    exact h n (List.mem_cons_of_mem n0 hn)

theorem processEdge_absorbed {st : GraphStore} {e : GEdge}
    (h : ∀ ty s t, e.type = some ty → ty ∈ ALLOWED_RELATION_TYPES →
      e.source = some s → e.target = some t →
      s ∈ st.entities → t ∈ st.entities → (s, t, ty) ∈ st.edges) :
    processEdge st e = st := by
  unfold processEdge
  rcases hty : e.type with _ | ty
  · rfl
  · simp only
    by_cases hallow : ty ∈ ALLOWED_RELATION_TYPES
    · rw [if_pos hallow]
      rcases hs : e.source with _ | s <;> rcases ht : e.target with _ | t <;>
        simp only
      split
      · rename_i hmemb
        rw [mergeInto_of_mem (h ty s t hty hallow hs ht hmemb.1 hmemb.2)]
      · rfl
    · rw [if_neg hallow]

theorem edgeFold_absorbed {es : List GEdge} :
    ∀ {st : GraphStore},
      (∀ e ∈ es, ∀ ty s t, e.type = some ty → ty ∈ ALLOWED_RELATION_TYPES →
        e.source = some s → e.target = some t →
        s ∈ st.entities → t ∈ st.entities → (s, t, ty) ∈ st.edges) →
      es.foldl processEdge st = st := by
  induction es with
  | nil => intro st _; rfl
  | cons e0 es ih =>
    intro st h
    rw [List.foldl_cons, processEdge_absorbed (h e0 (List.mem_cons_self e0 es)),
      ih]
    intro e he
    exact h e (List.mem_cons_of_mem e0 he)

/-! ### Skip lemmas: iterations that write nothing -/

/-- An edge whose endpoint match fails writes nothing. -/
theorem processEdge_not_endpoints {st : GraphStore} {e : GEdge}
    (h : endpointsPresent st e = false) : processEdge st e = st := by
  unfold processEdge
  unfold endpointsPresent at h
  rcases hty : e.type with _ | ty
  · rfl
  · simp only
    by_cases hallow : ty ∈ ALLOWED_RELATION_TYPES
    · rw [if_pos hallow]
      rcases hs : e.source with _ | s <;> rcases ht : e.target with _ | t <;>
        simp only
      rw [hs, ht] at h
      simp only [Bool.and_eq_false_iff, decide_eq_false_iff_not] at h
      rw [if_neg]
      rintro ⟨h1, h2⟩
      rcases h with h' | h' <;> exact h' (by assumption)
    · rw [if_neg hallow]

/-- A node whose name key is absent or empty writes nothing. -/
theorem processNode_skip {ep : String} {st : GraphStore} {n : GNode}
    (h : n.name = none ∨ n.name = some "") : processNode ep st n = st := by
  unfold processNode
  rcases h with h | h <;> rw [h]
  simp

/-- The entities list of the state the edge loop starts from. -/
theorem endpointsPresent_edgeFold (es : List GEdge) (st : GraphStore)
    (e : GEdge) :
    endpointsPresent (es.foldl processEdge st) e = endpointsPresent st e := by
  unfold endpointsPresent
  cases e.source <;> cases e.target <;> simp only <;>
    rw [edgeFold_entities]

/-- The node loop never creates an entity with an empty name. -/
theorem processNode_no_empty {ep : String} {st : GraphStore} {n : GNode}
    (h : "" ∉ st.entities) : "" ∉ (processNode ep st n).entities := by
  unfold processNode
  rcases hname : n.name with _ | nm
  · exact h
  · simp only
    by_cases hne : nm = ""
    · rw [if_pos hne]
      exact h
    · rw [if_neg hne]
      have : "" ∉ mergeInto st.entities nm := by
        intro hmem
        rcases mem_mergeInto.mp hmem with h' | h'
        · exact h h'
        · exact hne h'.symm
      split <;> exact this

theorem nodeFold_no_empty {ep : String} {ns : List GNode} :
    ∀ {st : GraphStore}, "" ∉ st.entities →
      "" ∉ (ns.foldl (processNode ep) st).entities := by
  induction ns with
  | nil => intro st h; exact h
  | cons n ns ih =>
    intro st h
    rw [List.foldl_cons]
    exact ih (processNode_no_empty h)

/-! ### Claim theorems for the upsert engine -/

/-- C1: every relationship edge that `insert_structured_graph` leaves in the
graph store has a type in the fixed relation vocabulary — an edge with an
out-of-vocabulary type is never written, so the vocabulary invariant on
stored typed edges is preserved by every upsert. -/
theorem C1_upsert_edge_types_in_vocabulary (ep : String) (st : GraphStore)
    (d : StructuredData)
    (h : ∀ tr ∈ st.edges, tr.2.2 ∈ ALLOWED_RELATION_TYPES) :
    ∀ tr ∈ (insert_structured_graph ep st d).edges,
      tr.2.2 ∈ ALLOWED_RELATION_TYPES := by
  intro tr htr
  unfold insert_structured_graph at htr
  rcases edgeFold_edges_allowed htr with h' | h'
  · rw [nodeFold_edges] at h'
    exact h tr h'
  · exact h'

/-- Witness for C1 at a concrete graph containing an out-of-vocabulary edge
(`mentions_on` is dropped; the one edge the store holds is in the
vocabulary). -/
theorem C1_upsert_edge_types_in_vocabulary_witness :
    ("Alice", "Yoga", "practices").2.2 ∈ ALLOWED_RELATION_TYPES :=
  C1_upsert_edge_types_in_vocabulary "Ep1" ⟨["Ep1"], [], [], []⟩
    ⟨some [⟨some "Alice"⟩, ⟨some "Yoga"⟩, ⟨some "Monday"⟩],
     some [⟨some "Alice", some "Yoga", some "practices"⟩,
           ⟨some "Alice", some "Monday", some "mentions_on"⟩]⟩
    (by intro tr htr; simp at htr)
    ("Alice", "Yoga", "practices") (by decide)

/-- C2: the upsert is idempotent — running `insert_structured_graph` twice
with the same structured graph and episode leaves the store exactly as one
run does: no duplicate entities, provenance edges, or typed edges. -/
theorem C2_upsert_idempotent (ep : String) (st : GraphStore)
    (d : StructuredData) :
    insert_structured_graph ep (insert_structured_graph ep st d) d =
      insert_structured_graph ep st d := by
  unfold insert_structured_graph
  set ns := d.nodes.getD [] with hns
  set es := d.edges.getD [] with hes
  set A := ns.foldl (processNode ep) st with hA
  set B := es.foldl processEdge A with hB
  have hnode : ns.foldl (processNode ep) B = B := by
    apply nodeFold_absorbed
    intro n hn nm hname hne
    have heff := @nodeFold_effect ep ns st n nm hn hname hne
    constructor
    · rw [hB, edgeFold_entities]
      exact heff.1
    · intro hep
      rw [hB, edgeFold_mentions]
      apply heff.2
      rw [hB, edgeFold_episodes, hA, nodeFold_episodes] at hep
      exact hep
  rw [hnode]
  apply edgeFold_absorbed
  intro e he ty s t hty hallow hs ht hsmem htmem
  rw [hB, edgeFold_entities] at hsmem htmem
  exact @edgeFold_effect es A e s t ty he hty hallow hs ht hsmem htmem

/-- C5: a vocabulary edge whose endpoint entities are not both present when
the edge loop runs is not written, and removing it from the input changes
nothing else — the failed edge write affects no sibling node or edge write. -/
theorem C5_edge_write_requires_endpoints (ep : String) (st : GraphStore)
    (ns : Option (List GNode)) (es1 es2 : List GEdge) (e : GEdge) (ty : String)
    (hty : e.type = some ty) (hallow : ty ∈ ALLOWED_RELATION_TYPES)
    (habs : endpointsPresent ((ns.getD []).foldl (processNode ep) st) e
      = false) :
    insert_structured_graph ep st ⟨ns, some (es1 ++ e :: es2)⟩ =
      insert_structured_graph ep st ⟨ns, some (es1 ++ es2)⟩ := by
  unfold insert_structured_graph
  simp only [Option.getD_some]
  rw [List.foldl_append, List.foldl_append, List.foldl_cons]
  congr 1
  apply processEdge_not_endpoints
  rw [endpointsPresent_edgeFold]
  exact habs

/-- Witness for C5: inserting the lone vocabulary edge Alice-practices-Yoga
into a store without those entities writes nothing, exactly as inserting no
edge at all. -/
theorem C5_edge_write_requires_endpoints_witness :
    insert_structured_graph "Ep1" ⟨["Ep1"], [], [], []⟩
      ⟨some [], some ([] ++ ⟨some "Alice", some "Yoga", some "practices"⟩ :: [])⟩ =
    insert_structured_graph "Ep1" ⟨["Ep1"], [], [], []⟩
      ⟨some [], some ([] ++ [])⟩ :=
  C5_edge_write_requires_endpoints "Ep1" ⟨["Ep1"], [], [], []⟩ (some []) [] []
    ⟨some "Alice", some "Yoga", some "practices"⟩ "practices" rfl
    (by decide) (by decide)

/-- C10: a node entry with a missing, null, or empty name is silently
skipped — the insertion result is exactly that of the same graph without the
entry, so sibling writes are unaffected — and no Entity with an empty name
is ever created. -/
theorem C10_nameless_nodes_skipped (ep : String) (st : GraphStore) :
    (∀ (ns1 ns2 : List GNode) (es : Option (List GEdge)) (n : GNode),
      n.name = none ∨ n.name = some "" →
      insert_structured_graph ep st ⟨some (ns1 ++ n :: ns2), es⟩ =
        insert_structured_graph ep st ⟨some (ns1 ++ ns2), es⟩) ∧
    (∀ d : StructuredData, "" ∉ st.entities →
      "" ∉ (insert_structured_graph ep st d).entities) := by
  constructor
  · intro ns1 ns2 es n h
    unfold insert_structured_graph
    simp only [Option.getD_some]
    congr 1
    rw [List.foldl_append, List.foldl_append, List.foldl_cons,
      processNode_skip h]
  · intro d h
    unfold insert_structured_graph
    intro hmem
    rw [edgeFold_entities] at hmem
    exact nodeFold_no_empty h hmem

/-- Witness for C10: a null-named node entry in a concrete graph is skipped
without disturbing its siblings, and the store keeps no empty-named entity. -/
theorem C10_nameless_nodes_skipped_witness :
    (insert_structured_graph "Ep1" ⟨["Ep1"], [], [], []⟩
      ⟨some ([⟨some "Alice"⟩] ++ ⟨none⟩ :: []), some []⟩ =
      insert_structured_graph "Ep1" ⟨["Ep1"], [], [], []⟩
        ⟨some ([⟨some "Alice"⟩] ++ []), some []⟩) ∧
    "" ∉ (insert_structured_graph "Ep1" ⟨["Ep1"], [], [], []⟩
      ⟨some [⟨some "Alice"⟩, ⟨some ""⟩], some []⟩).entities :=
  ⟨(C10_nameless_nodes_skipped "Ep1" ⟨["Ep1"], [], [], []⟩).1
      [⟨some "Alice"⟩] [] (some []) ⟨none⟩ (Or.inl rfl),
   (C10_nameless_nodes_skipped "Ep1" ⟨["Ep1"], [], [], []⟩).2
      ⟨some [⟨some "Alice"⟩, ⟨some ""⟩], some []⟩ (by decide)⟩

/-! ### Orchestrator lemmas -/

/-- Unfolding one result-loop iteration: the loop only ever appends. -/
theorem results_loop_eq_map {α β : Type} (f : α → β) (l : List α) :
    ∀ acc : List β, l.foldl (fun r p => r ++ [f p]) acc = acc ++ l.map f := by
  induction l with
  | nil => intro acc; simp
  | cons a l ih =>
    intro acc
    rw [List.foldl_cons, ih, List.map_cons]
    simp

/-- The `try` block always records the `graphiti.add_episode` call it makes,
with the arguments it was entered with. -/
theorem runPipeline_trace_add (nm ct desc : String) (rt : Int)
    (w : EpisodeWorld) :
    ((runPipeline nm ct desc rt w).2).addEpisodeCall = some (nm, ct, desc, rt) := by
  unfold runPipeline
  rcases w.addEpisodeError with _ | err
  · simp only
    rcases w.llmError with _ | err
    · simp only
      split
      · rcases w.insertError with _ | err <;> rfl
      · rfl
    · rfl
  · rfl

/-- Every outcome the `try` block produces carries the episode name. -/
theorem runPipeline_hasName (nm ct desc : String) (rt : Int)
    (w : EpisodeWorld) :
    hasNameField (runPipeline nm ct desc rt w).1 = true ∧
    outcomeName (runPipeline nm ct desc rt w).1 = some nm := by
  unfold runPipeline
  rcases w.addEpisodeError with _ | err
  · simp only
    rcases w.llmError with _ | err
    · simp only
      split
      · rcases w.insertError with _ | err <;> exact ⟨rfl, rfl⟩
      · exact ⟨rfl, rfl⟩
    · exact ⟨rfl, rfl⟩
  · exact ⟨rfl, rfl⟩

/-- A `try` block whose episode write and LLM call succeed but whose LLM
response fails JSON parsing: the empty dict is falsy, so the upsert is
skipped and the episode still succeeds. -/
theorem runPipeline_parse_error (nm ct desc : String) (rt : Int)
    (w : EpisodeWorld) (e : String) (hadd : w.addEpisodeError = none)
    (hllm : w.llmError = none) (hparse : w.parsed = .error e) :
    runPipeline nm ct desc rt w =
      (.ok nm "Episode added successfully" emptyStructuredData,
       ⟨some (nm, ct, desc, rt), true, false⟩) := by
  unfold runPipeline
  rw [hadd]
  simp only
  rw [hllm]
  simp only
  rw [hparse]
  rfl

/-- Reduction of `processEpisode` on a request that passes validation. -/
theorem processEpisode_valid (nm ct : String) (hn : nm ≠ "") (hc : ct ≠ "")
    (desc rt : Option String) (w : EpisodeWorld) :
    processEpisode ⟨some nm, some ct, desc, rt⟩ w =
      match rt with
      | none => runPipeline nm ct (desc.getD "") w.now w
      | some s =>
        if s = "" then runPipeline nm ct (desc.getD "") w.now w
        else
          match w.fromiso with
          | some t => runPipeline nm ct (desc.getD "") t w
          | none =>
            (.errOnly ("Invalid reference_time for episode: " ++ nm), noTrace) := by
  unfold processEpisode
  simp only
  rw [if_neg (not_or.mpr ⟨hn, hc⟩)]

/-! ### Claim theorems for the orchestrator -/

/-- C3: the batch endpoint processes episodes sequentially and
independently: the result list is exactly the input list mapped through the
per-episode pipeline, so it has the input's length, result `k` is computed
from input `k` alone, and no episode's failure affects any later episode. -/
theorem C3_batch_ordered_and_independent
    (eps : List (EpisodeRequest × EpisodeWorld)) :
    add_episodes eps = eps.map (fun p => (processEpisode p.1 p.2).1) ∧
    (add_episodes eps).length = eps.length := by
  have h : add_episodes eps = eps.map (fun p => (processEpisode p.1 p.2).1) := by
    unfold add_episodes
    rw [results_loop_eq_map (fun p : EpisodeRequest × EpisodeWorld =>
      (processEpisode p.1 p.2).1) eps []]
    rfl
  exact ⟨h, by rw [h, List.length_map]⟩

/-- C4: when the LLM response is not valid JSON, the extractor returns the
empty dict (no nodes, no edges), the upsert is never invoked, the episode
write has still happened, and the per-episode outcome is a success. -/
theorem C4_parse_failure_degrades_to_success (nm ct : String) (hn : nm ≠ "")
    (hc : ct ≠ "") (desc rt : Option String) (w : EpisodeWorld) (e : String)
    (htime : timeOk ⟨some nm, some ct, desc, rt⟩ w = true)
    (hadd : w.addEpisodeError = none) (hllm : w.llmError = none)
    (hparse : w.parsed = .error e) :
    extract_structured_json w.parsed = emptyStructuredData ∧
    (processEpisode ⟨some nm, some ct, desc, rt⟩ w).1 =
      .ok nm "Episode added successfully" emptyStructuredData ∧
    ((processEpisode ⟨some nm, some ct, desc, rt⟩ w).2).insertCalled = false ∧
    ((processEpisode ⟨some nm, some ct, desc, rt⟩ w).2).addEpisodeCall.isSome
      = true := by
  refine ⟨by rw [hparse]; rfl, ?_⟩
  rw [processEpisode_valid nm ct hn hc desc rt w]
  unfold timeOk at htime
  rcases rt with _ | s
  · rw [runPipeline_parse_error nm ct (desc.getD "") w.now w e hadd hllm hparse]
    exact ⟨rfl, rfl, rfl⟩
  · simp only at htime ⊢
    by_cases hs : s = ""
    · rw [if_pos hs,
        runPipeline_parse_error nm ct (desc.getD "") w.now w e hadd hllm hparse]
      exact ⟨rfl, rfl, rfl⟩
    · rw [if_neg hs]
      rw [decide_eq_false hs, Bool.false_or] at htime
      rcases hiso : w.fromiso with _ | t
      · rw [hiso] at htime
        simp at htime
      · simp only
        rw [runPipeline_parse_error nm ct (desc.getD "") t w e hadd hllm hparse]
        exact ⟨rfl, rfl, rfl⟩

/-- Witness for C4 at a concrete valid episode whose LLM response fails to
parse. -/
theorem C4_parse_failure_degrades_to_success_witness :
    extract_structured_json
      (⟨5, none, none, none, Except.error "bad json", none⟩ : EpisodeWorld).parsed
      = emptyStructuredData ∧
    (processEpisode ⟨some "Ep1", some "hello", none, none⟩
      ⟨5, none, none, none, Except.error "bad json", none⟩).1 =
      .ok "Ep1" "Episode added successfully" emptyStructuredData ∧
    ((processEpisode ⟨some "Ep1", some "hello", none, none⟩
      ⟨5, none, none, none, Except.error "bad json", none⟩).2).insertCalled
      = false ∧
    ((processEpisode ⟨some "Ep1", some "hello", none, none⟩
      ⟨5, none, none, none, Except.error "bad json", none⟩).2).addEpisodeCall.isSome
      = true :=
  C4_parse_failure_degrades_to_success "Ep1" "hello" (by decide) (by decide)
    none none ⟨5, none, none, none, Except.error "bad json", none⟩ "bad json"
    rfl rfl rfl rfl

/-- A request failing Python-truthiness validation of name or content
yields the error-only outcome and an empty trace. -/
theorem processEpisode_missing (req : EpisodeRequest) (w : EpisodeWorld)
    (h : strTruthy req.name = false ∨ strTruthy req.content = false) :
    processEpisode req w = (.errOnly missingMsg, noTrace) := by
  unfold processEpisode
  rcases hn : req.name with _ | nm <;> rcases hc : req.content with _ | ct <;>
    simp only
  rw [hn, hc] at h
  unfold strTruthy at h
  rw [if_pos]
  rcases h with h | h <;> simp only [decide_eq_false_iff_not, not_not] at h
  · exact Or.inl h
  · exact Or.inr h

/-- C6: an episode whose name or content is missing or empty is marked
failed with the missing-name-or-content error and makes no external call:
no episode write, no LLM call, no upsert. -/
theorem C6_validation_short_circuits (req : EpisodeRequest) (w : EpisodeWorld)
    (h : strTruthy req.name = false ∨ strTruthy req.content = false) :
    processEpisode req w = (.errOnly missingMsg, noTrace) :=
  processEpisode_missing req w h

/-- Witness for C6: an episode with a name but no content fails validation
without any external call. -/
theorem C6_validation_short_circuits_witness :
    processEpisode ⟨some "Ep1", none, none, none⟩
      ⟨0, none, none, none, Except.error "x", none⟩ =
      (.errOnly missingMsg, noTrace) :=
  C6_validation_short_circuits ⟨some "Ep1", none, none, none⟩
    ⟨0, none, none, none, Except.error "x", none⟩ (Or.inr rfl)

/-- C7 counterexample: the claim predicts that an episode supplying the
unparseable reference-time string `""` is marked failed with the invalid
reference-time error; the code treats the falsy empty string exactly like an
absent field and the episode succeeds. -/
theorem C7_counterexample_empty_reference_time :
    (processEpisode ⟨some "Ep1", some "hello", none, some ""⟩
      ⟨5, none, none, none, Except.error "bad json", none⟩).1 =
      .ok "Ep1" "Episode added successfully" emptyStructuredData ∧
    (processEpisode ⟨some "Ep1", some "hello", none, some ""⟩
      ⟨5, none, none, none, Except.error "bad json", none⟩).1 ≠
      .errOnly ("Invalid reference_time for episode: " ++ "Ep1") := by
  constructor
  · rfl
  · decide

/-- C7 amended: a *non-empty* reference-time string that fails ISO-8601
parsing marks the episode failed with the invalid reference-time error and
no further step runs; an absent (or falsy empty) reference time makes the
episode write use the current UTC time of the call. -/
theorem C7_amended_reference_time (nm ct : String) (hn : nm ≠ "")
    (hc : ct ≠ "") (desc : Option String) (w : EpisodeWorld) :
    (∀ s : String, s ≠ "" → w.fromiso = none →
      processEpisode ⟨some nm, some ct, desc, some s⟩ w =
        (.errOnly ("Invalid reference_time for episode: " ++ nm), noTrace)) ∧
    (∀ rt : Option String, rt = none ∨ rt = some "" →
      ((processEpisode ⟨some nm, some ct, desc, rt⟩ w).2).addEpisodeCall =
        some (nm, ct, desc.getD "", w.now)) := by
  constructor
  · intro s hs hiso
    rw [processEpisode_valid nm ct hn hc desc (some s) w]
    simp only
    rw [if_neg hs, hiso]
  · intro rt hrt
    rcases hrt with rfl | rfl
    · rw [processEpisode_valid nm ct hn hc desc none w]
      exact runPipeline_trace_add nm ct (desc.getD "") w.now w
    · rw [processEpisode_valid nm ct hn hc desc (some "") w]
      simp only [if_pos rfl]
      exact runPipeline_trace_add nm ct (desc.getD "") w.now w

/-- Witness for C7's amended claim: a concrete unparseable reference time
fails the episode before any call, and a concrete episode without a
reference time passes the world's current time to the episode write. -/
theorem C7_amended_reference_time_witness :
    processEpisode ⟨some "Ep1", some "hi", none, some "2abc"⟩
      ⟨5, none, none, none, Except.error "x", none⟩ =
      (.errOnly ("Invalid reference_time for episode: " ++ "Ep1"), noTrace) ∧
    ((processEpisode ⟨some "Ep1", some "hi", none, none⟩
      ⟨5, none, none, none, Except.error "x", none⟩).2).addEpisodeCall =
      some ("Ep1", "hi", "", 5) :=
  ⟨(C7_amended_reference_time "Ep1" "hi" (by decide) (by decide) none
      ⟨5, none, none, none, Except.error "x", none⟩).1 "2abc" (by decide) rfl,
   (C7_amended_reference_time "Ep1" "hi" (by decide) (by decide) none
      ⟨5, none, none, none, Except.error "x", none⟩).2 none (Or.inl rfl)⟩

/-- C8 counterexample: the claim predicts that every element of the batch
response carries the episode's name; the validation-failure element
`{"error": "Missing name or content for one episode"}` has no name key. -/
theorem C8_counterexample_nameless_error :
    add_episodes [(⟨some "Ep1", none, none, none⟩,
      ⟨0, none, none, none, Except.error "x", none⟩)] =
      [.errOnly missingMsg] ∧
    hasNameField (.errOnly missingMsg) = false :=
  ⟨rfl, rfl⟩

/-- C8 amended: a batch outcome carries the name key exactly when its
episode passed validation and reference-time parsing, and then the name is
the episode's; validation and time-parse failures emit an error-only
element without a name key (the time-parse message embeds the name in its
text only). -/
theorem C8_amended_name_field (req : EpisodeRequest) (w : EpisodeWorld) :
    hasNameField (processEpisode req w).1 = (validOk req && timeOk req w) ∧
    outcomeName (processEpisode req w).1 =
      (if validOk req && timeOk req w then req.name else none) := by
  rcases req with ⟨name, content, desc, rt⟩
  rcases name with _ | nm <;> rcases content with _ | ct
  · exact ⟨rfl, rfl⟩
  · exact ⟨rfl, rfl⟩
  · have hv : validOk ⟨some nm, none, desc, rt⟩ = false := by
      simp [validOk, strTruthy]
    refine ⟨?_, ?_⟩ <;> rw [hv] <;> rfl
  · by_cases hnm : nm = ""
    · subst hnm
      have hres : processEpisode ⟨some "", some ct, desc, rt⟩ w =
          (.errOnly missingMsg, noTrace) :=
        processEpisode_missing _ w (Or.inl rfl)
      rw [hres]
      simp [validOk, strTruthy, hasNameField, outcomeName]
    · by_cases hct : ct = ""
      · subst hct
        have hres : processEpisode ⟨some nm, some "", desc, rt⟩ w =
            (.errOnly missingMsg, noTrace) :=
          processEpisode_missing _ w (Or.inr rfl)
        rw [hres]
        simp [validOk, strTruthy, hasNameField, outcomeName]
      · have hvalid : validOk ⟨some nm, some ct, desc, rt⟩ = true := by
          simp [validOk, strTruthy, hnm, hct]
        rw [processEpisode_valid nm ct hnm hct desc rt w, hvalid,
          Bool.true_and]
        rcases rt with _ | s
        · have htime : timeOk ⟨some nm, some ct, desc, none⟩ w = true := rfl
          rw [htime, if_pos rfl]
          exact runPipeline_hasName nm ct (desc.getD "") w.now w
        · simp only
          by_cases hs : s = ""
          · rw [if_pos hs]
            have htime : timeOk ⟨some nm, some ct, desc, some s⟩ w = true := by
              simp [timeOk, hs]
            rw [htime, if_pos rfl]
            exact runPipeline_hasName nm ct (desc.getD "") w.now w
          · rw [if_neg hs]
            have htime : timeOk ⟨some nm, some ct, desc, some s⟩ w =
                w.fromiso.isSome := by
              simp [timeOk, hs]
            rw [htime]
            rcases hiso : w.fromiso with _ | t
            · simp [hasNameField, outcomeName]
            · simp only [Option.isSome_some, if_pos rfl]
              exact runPipeline_hasName nm ct (desc.getD "") t w

/-- C9: when the underlying graph-engine search raises, the whole search
fails with an error carrying the cause, and the endpoint maps any such
failure to the single fixed 500 detail string — the response is identical
for every underlying error, so no internals leak and no partial result list
is returned. -/
theorem C9_search_failure_is_generic (err : String) :
    search_graphiti (.error err) =
      .error ("Graphiti search failed: " ++ err) ∧
    search_graphiti_api (.error err) = .err500 genericSearchFailure ∧
    ∀ err2 : String,
      search_graphiti_api (.error err) = search_graphiti_api (.error err2) :=
  ⟨rfl, rfl, fun _ => rfl⟩

end Grafity
